import Mathlib

/-!
Shallow embedding of the `mcp-project-memory` store and gateway
(`src/nodejs/src/types.ts` — the `MemoryManager` class — and
`src/nodejs/src/server.ts` — the `ProjectMemoryServer` class).

Modelling conventions:
* JavaScript strings are embedded as `List Char` (`JStr`); `toLowerCase`,
  `includes`, `split(' ')` and `slice` are translated below, following the
  ECMAScript semantics of each call site.
* JavaScript numbers in the relevance arithmetic are embedded as `JNum`:
  an exact rational, NaN, or +Infinity.  The division
  `queryWord.length / textWord.length` yields NaN at a `0/0` pair (an empty
  query token matching an empty text token, reachable through adjacent,
  leading or trailing spaces) and NaN then absorbs the whole score, exactly
  as in IEEE arithmetic; finite quotients are kept exact rather than rounded
  to 53-bit doubles.  Elsewhere numbers are `Int`/`Nat` as the schema
  declares integers.
* File I/O (`fs-extra` calls, backups) is outside the embedding; the
  in-memory effect of `saveMemory` (bumping `metadata.last_updated`) is kept.
  Timestamps and generated ids are supplied by the caller as parameters.
* `Array.prototype.sort` with the comparator `(a, b) => b.relevance - a.relevance`
  is a stable sort by descending relevance (ES2019 stability guarantee) as
  long as every relevance is a number; it is embedded as
  `List.insertionSort` with the relation `searchGe`, which is the stable
  descending sort.  When some relevance is NaN the comparator is not a
  consistent comparator (`SortCompare` maps a NaN result to "equal") and the
  ECMAScript sort order is implementation-defined; the model then fixes one
  order (NaN below every number), and no claim proved below depends on the
  order in that situation — order-sensitive statements carry a no-NaN
  hypothesis.
-/

/-- JavaScript strings, embedded as lists of characters. -/
abbrev JStr := List Char

/-- `String.prototype.toLowerCase`, character by character. -/
def jsToLower (s : JStr) : JStr := s.map Char.toLower

/-- `startsWithL pre s = true` iff `pre` is a leading segment of `s`
(the prefix test underlying `String.prototype.includes`). -/
def startsWithL : JStr → JStr → Bool
  | [], _ => true
  | _ :: _, [] => false
  | a :: as, b :: bs => a == b && startsWithL as bs

/-- `containsSub hay needle` embeds `hay.includes(needle)`. -/
def containsSub (hay needle : JStr) : Bool :=
  match hay with
  | [] => needle.isEmpty
  | c :: t => startsWithL needle (c :: t) || containsSub t needle

/-- `s.split(' ')`: split on every single space character; consecutive
spaces produce empty tokens and the empty string yields `[""]`,
exactly as in ECMAScript. -/
def splitSp : JStr → List JStr
  | [] => [[]]
  | c :: cs =>
    if c = ' ' then [] :: splitSp cs
    else
      match splitSp cs with
      | [] => [[c]]
      | w :: ws => (c :: w) :: ws

/-- How JavaScript string interpolation renders a possibly-`undefined`
string value (`${x}` prints `undefined` when `x` is `undefined`). -/
def jsShowOptStr (o : Option JStr) : JStr :=
  match o with
  | some s => s
  | none => "undefined".toList

/-- `arr.slice(-n)` for a non-negative count `n`.  Note the JavaScript
corner case: `-0` is `0`, so `slice(-0)` returns the whole array. -/
def jsSliceFromEnd (n : Nat) (l : List α) : List α :=
  if n = 0 then l else l.drop (l.length - n)

/-- The last `n` elements of a list (the intended reading of `slice(-n)`). -/
def lastN (n : Nat) (l : List α) : List α := l.drop (l.length - n)

/-! ## Data model (`src/nodejs/src/types.ts`, interfaces) -/

/-- `ProjectInfo` interface. -/
structure ProjectInfo where
  name : JStr
  type : JStr
  description : JStr
  createdAt : JStr
  lastUpdated : JStr
deriving DecidableEq

/-- `ComponentStatus` interface.  At runtime the `status` slot holds whatever
the caller passed (possibly `undefined`), hence `Option JStr`. -/
structure ComponentStatus where
  status : Option JStr
  progress : Int
  details : Option JStr
  lastUpdated : JStr
deriving DecidableEq

/-- `ArchitectureDecision` interface. -/
structure ArchitectureDecision where
  id : JStr
  decision : JStr
  rationale : JStr
  impact : Option JStr
  alternatives : Option (List JStr)
  date : JStr
  tags : Option (List JStr)
deriving DecidableEq

/-- `WorkingSolution` interface. -/
structure WorkingSolution where
  id : JStr
  problem : JStr
  solution : JStr
  command : Option JStr
  tags : Option (List JStr)
  date : JStr
  successCount : Nat
deriving DecidableEq

/-- `ConversationContext` interface. -/
structure ConversationContext where
  id : JStr
  summary : JStr
  decisions_made : Option (List JStr)
  solutions_found : Option (List JStr)
  date : JStr
deriving DecidableEq

/-- The `implementation_status` section; `components` is a JavaScript object
embedded as an insertion-ordered association list. -/
structure ImplementationStatus where
  overall_progress : JStr
  components : List (JStr × ComponentStatus)
deriving DecidableEq

/-- The `architecture` section. -/
structure Architecture where
  technologies : List JStr
  decisions : List ArchitectureDecision
deriving DecidableEq

/-- The `metadata` section. -/
structure MemoryMetadata where
  version : JStr
  created_at : JStr
  last_updated : JStr
deriving DecidableEq

/-- The root `ProjectMemory` aggregate; `working_solutions` is a JavaScript
object embedded as an insertion-ordered association list. -/
structure ProjectMemory where
  project_info : ProjectInfo
  implementation_status : ImplementationStatus
  architecture : Architecture
  working_solutions : List (JStr × WorkingSolution)
  current_priorities : List JStr
  conversations : List ConversationContext
  metadata : MemoryMetadata
deriving DecidableEq

/-! ## Search (`MemoryManager.searchMemory` / `calculateRelevance`) -/

/-- The values the relevance arithmetic can take: an exact rational, NaN, or
+Infinity (negative values never arise: the operands are string lengths and
the flat bonus).  Finite doubles are modelled as exact rationals. -/
inductive JNum where
  | fin (q : ℚ)
  | nan : JNum
  | inf : JNum
deriving DecidableEq

/-- IEEE addition on relevance values: NaN absorbs, +Infinity dominates any
finite value. -/
def jadd : JNum → JNum → JNum
  | .nan, _ => .nan
  | _, .nan => .nan
  | .inf, _ => .inf
  | _, .inf => .inf
  | .fin p, .fin q => .fin (p + q)

/-- IEEE division `p / q` of two non-negative integers (the
`queryWord.length / textWord.length` expression): `0 / 0` is NaN, `p / 0`
with `p > 0` is +Infinity, otherwise the exact quotient. -/
def jdivNat (p q : Nat) : JNum :=
  if q = 0 then (if p = 0 then JNum.nan else JNum.inf) else JNum.fin ((p : ℚ) / (q : ℚ))

/-- The JavaScript comparison `n >= 10`: false for NaN, true for +Infinity. -/
def jnumGeTen : JNum → Bool
  | .fin q => decide (10 ≤ q)
  | .nan => false
  | .inf => true

/-- The total order the model uses to run the sort: descending on numbers
(+Infinity above every rational), with NaN placed below everything.  On
NaN-free inputs this is exactly the comparator's descending order; with NaN
present the true ECMAScript order is implementation-defined and the model
just fixes this one. -/
def jnumGeB : JNum → JNum → Bool
  | _, .nan => true
  | .nan, _ => false
  | .inf, _ => true
  | _, .inf => false
  | .fin p, .fin q => decide (q ≤ p)

/-- The `data` payload of one search result. -/
inductive SearchData where
  | dec (d : ArchitectureDecision)
  | sol (s : WorkingSolution)
  | conv (c : ConversationContext)
deriving DecidableEq

/-- One element of the array built by `searchMemory`. -/
structure SearchResult where
  type : JStr
  relevance : JNum
  data : SearchData
deriving DecidableEq

/-- The order realized by the comparator `(a, b) => b.relevance - a.relevance`:
`a` may come before `b` when `a`'s relevance is at least `b`'s (with the
model's fixed placement of NaN, see `jnumGeB`). -/
def searchGe (a b : SearchResult) : Prop := jnumGeB a.relevance b.relevance = true

instance : DecidableRel searchGe :=
  fun a b => inferInstanceAs (Decidable (jnumGeB a.relevance b.relevance = true))

instance : IsTotal SearchResult searchGe := by
  refine ⟨fun a b => ?_⟩
  unfold searchGe
  cases a.relevance <;> cases b.relevance <;> simp [jnumGeB] <;> exact le_total _ _

instance : IsTrans SearchResult searchGe := by
  refine ⟨fun a b c h1 h2 => ?_⟩
  unfold searchGe at h1 h2 ⊢
  generalize a.relevance = x at h1 ⊢
  generalize b.relevance = y at h1 h2
  generalize c.relevance = z at h2 ⊢
  cases x <;> cases y <;> cases z <;> simp_all [jnumGeB] <;> linarith

/-- The stable descending sort performed by
`results.sort((a, b) => b.relevance - a.relevance)`. -/
def sortDesc (l : List SearchResult) : List SearchResult :=
  l.insertionSort searchGe

/-- `MemoryManager.calculateRelevance` (types.ts:512-534): +10 when the
lowercased text contains the (already lowercased) query, plus, for each
(query word, text word) pair where the text word contains the query word,
`queryWord.length / textWord.length` — with IEEE semantics: a `0/0` pair
(empty query token matching an empty text token, since `''.includes('')` is
true) contributes NaN and NaN then absorbs the whole score. -/
def calculateRelevance (query text : JStr) : JNum :=
  let textLower := jsToLower text
  let score : JNum := JNum.fin (if containsSub textLower query then 10 else 0)
  let queryWords := splitSp query
  let textWords := splitSp textLower
  queryWords.foldl
    (fun acc qw =>
      textWords.foldl
        (fun acc2 tw =>
          if containsSub tw qw then jadd acc2 (jdivNat qw.length tw.length)
          else acc2)
        acc)
    score

/-- The relevance formula exactly as the claim and spec word it
(§4.1 searchMemory): a flat +10 bonus when the full lowercased query is a
substring of the full lowercased text, plus the sum over all (query token,
text token) pairs with the text token containing the query token of
`len(query_token)/len(text_token)` — a total exact-arithmetic formula.
Stated separately from `calculateRelevance` (the source translation, whose
IEEE evaluation can instead produce NaN) so that the two can be compared. -/
def relevanceSpec (query text : JStr) : ℚ :=
  (if containsSub (jsToLower text) query then (10 : ℚ) else 0) +
    ((splitSp query).map fun qw =>
      ((splitSp (jsToLower text)).map fun tw =>
        if containsSub tw qw then (qw.length : ℚ) / (tw.length : ℚ) else 0).sum).sum

/-- Admission test for a decision (types.ts:468-469): the lowercased query
occurs in the lowercased `decision` field or in the lowercased `rationale`
field.  `ql` is the already-lowercased query. -/
def admitDecision (ql : JStr) (d : ArchitectureDecision) : Bool :=
  containsSub (jsToLower d.decision) ql || containsSub (jsToLower d.rationale) ql

/-- Admission test for a working solution (types.ts:482-483). -/
def admitSolution (ql : JStr) (s : WorkingSolution) : Bool :=
  containsSub (jsToLower s.problem) ql || containsSub (jsToLower s.solution) ql

/-- Admission test for a conversation (types.ts:496). -/
def admitConversation (ql : JStr) (c : ConversationContext) : Bool :=
  containsSub (jsToLower c.summary) ql

/-- The text handed to `calculateRelevance` for a decision:
`decision.decision + ' ' + decision.rationale`. -/
def decisionText (d : ArchitectureDecision) : JStr :=
  d.decision ++ ' ' :: d.rationale

/-- The text handed to `calculateRelevance` for a solution:
`solution.problem + ' ' + solution.solution`. -/
def solutionText (s : WorkingSolution) : JStr :=
  s.problem ++ ' ' :: s.solution

/-- The record text scored for each kind of search result. -/
def searchText : SearchData → JStr
  | .dec d => decisionText d
  | .sol s => solutionText s
  | .conv c => c.summary

/-- The `results` array of `searchMemory` before sorting, in scan order:
decisions, then working solutions (object insertion order), then
conversations.  `ql` is the lowercased query. -/
def searchCandidates (ql : JStr) (mem : ProjectMemory) : List SearchResult :=
  ((mem.architecture.decisions.filter (admitDecision ql)).map fun d =>
    ⟨"decision".toList, calculateRelevance ql (decisionText d), .dec d⟩)
  ++ (((mem.working_solutions.map Prod.snd).filter (admitSolution ql)).map fun s =>
    ⟨"solution".toList, calculateRelevance ql (solutionText s), .sol s⟩)
  ++ ((mem.conversations.filter (admitConversation ql)).map fun c =>
    ⟨"conversation".toList, calculateRelevance ql c.summary, .conv c⟩)

/-- `searchMemory` after the query has been lowercased: build candidates,
sort by descending relevance (stable), truncate to `limit`. -/
def searchMemoryLow (ql : JStr) (limit : Nat) (mem : ProjectMemory) : List SearchResult :=
  (sortDesc (searchCandidates ql mem)).take limit

/-- `MemoryManager.searchMemory` (types.ts:461-510). -/
def searchMemory (query : JStr) (limit : Nat) (mem : ProjectMemory) : List SearchResult :=
  searchMemoryLow (jsToLower query) limit mem

/-- The token-overlap test named by the spec: some token of the (lowercased)
query occurs as a substring of some token of the (lowercased) record text. -/
def tokenOverlap (ql tl : JStr) : Bool :=
  (splitSp ql).any fun qw => (splitSp tl).any fun tw => containsSub tw qw

/-- Admission for decisions exactly as claim C1 words it: the lowercased
record text (decision plus rationale) contains the lowercased query as a
substring, OR the token-overlap test succeeds. -/
def specAdmitDecision (q : JStr) (d : ArchitectureDecision) : Bool :=
  containsSub (jsToLower (decisionText d)) (jsToLower q)
    || tokenOverlap (jsToLower q) (jsToLower (decisionText d))

/-! ## Store mutators (`MemoryManager`) -/

/-- The in-memory effect of `saveMemory` (types.ts:291-310): bump
`metadata.last_updated`.  The file writes and the backup are I/O and lie
outside the embedding. -/
def saveMemoryEff (now : JStr) (mem : ProjectMemory) : ProjectMemory :=
  { mem with metadata := { mem.metadata with last_updated := now } }

/-- `MemoryManager.logConversationContext` (types.ts:434-459): append the new
entry, then, when the length exceeds `max_conversation_history`, keep
`conversations.slice(-max_conversation_history)`.  The entry (with its
generated id and date) and the save timestamp are supplied by the caller. -/
def logConversationContext (maxHist : Nat) (now : JStr) (entry : ConversationContext)
    (mem : ProjectMemory) : ProjectMemory :=
  let convs := mem.conversations ++ [entry]
  let convs2 := if maxHist < convs.length then jsSliceFromEnd maxHist convs else convs
  saveMemoryEff now { mem with conversations := convs2 }

/-- A sequence of `logConversationContext` calls, one per entry, in order. -/
def appendAllConversations (maxHist : Nat) (now : JStr) (es : List ConversationContext)
    (mem : ProjectMemory) : ProjectMemory :=
  es.foldl (fun m e => logConversationContext maxHist now e m) mem

/-- `components[component] = value` on a JavaScript object embedded as an
insertion-ordered association list: overwrite in place when the key exists,
otherwise append. -/
def setComponent (comps : List (JStr × ComponentStatus)) (k : JStr) (v : ComponentStatus) :
    List (JStr × ComponentStatus) :=
  if comps.any (fun p => decide (p.1 = k)) then
    comps.map fun p => if p.1 = k then (k, v) else p
  else comps ++ [(k, v)]

/-- `MemoryManager.updateImplementationStatus` (types.ts:357-375): replace the
component's record wholesale (`progress ?? 0`) and save.  A missing
`component` argument becomes the JavaScript property key `"undefined"`. -/
def updateImplementationStatus (component : Option JStr) (status : Option JStr)
    (details : Option JStr) (progress : Option Int) (now : JStr)
    (mem : ProjectMemory) : ProjectMemory :=
  let comps2 := setComponent mem.implementation_status.components
    (jsShowOptStr component) ⟨status, progress.getD 0, details, now⟩
  saveMemoryEff now
    { mem with implementation_status := { mem.implementation_status with components := comps2 } }

/-- The message of the unknown-scope error thrown by `clearMemory`
(types.ts:596). -/
def unknownScopeMsg (scope : JStr) : JStr :=
  "Unknown scope: ".toList ++ scope
    ++ ". Use: all, decisions, solutions, conversations, or components".toList

/-- The confirmation string returned by `clearMemory` (types.ts:605-606). -/
def clearedMsg (scope : JStr) (createBackup : Bool) : JStr :=
  "✅ Successfully cleared ".toList ++ scope ++ " memory".toList
    ++ (if createBackup then " (backup created)".toList else [])

/-- `MemoryManager.clearMemory` (types.ts:540-607).  `projectName` stands for
`path.basename(this.projectRoot)` and `ptype` for the project type the
constructor would compute; `createBackup` only drives the backup I/O (outside
the embedding) and the returned message.  An unknown scope throws before any
mutation, modelled as `Except.error`. -/
def clearMemory (scope : JStr) (createBackup : Bool) (projectName ptype now : JStr)
    (mem : ProjectMemory) : Except JStr (ProjectMemory × JStr) :=
  if scope = "all".toList then
    Except.ok (saveMemoryEff now
      { project_info :=
          { name := projectName
            type := ptype
            description := []
            createdAt := if mem.project_info.createdAt = [] then now
              else mem.project_info.createdAt
            lastUpdated := now }
        implementation_status := { overall_progress := "unknown".toList, components := [] }
        architecture := { technologies := [], decisions := [] }
        working_solutions := []
        current_priorities := []
        conversations := []
        metadata :=
          { version := "1.0.0".toList
            created_at := if mem.metadata.created_at = [] then now
              else mem.metadata.created_at
            last_updated := now } },
      clearedMsg scope createBackup)
  else if scope = "decisions".toList then
    Except.ok (saveMemoryEff now
      { mem with architecture := { mem.architecture with decisions := [] } },
      clearedMsg scope createBackup)
  else if scope = "solutions".toList then
    Except.ok (saveMemoryEff now { mem with working_solutions := [] },
      clearedMsg scope createBackup)
  else if scope = "conversations".toList then
    Except.ok (saveMemoryEff now { mem with conversations := [] },
      clearedMsg scope createBackup)
  else if scope = "components".toList then
    Except.ok (saveMemoryEff now
      { mem with implementation_status :=
        { overall_progress := "unknown".toList, components := [] } },
      clearedMsg scope createBackup)
  else
    Except.error (unknownScopeMsg scope)

/-- The in-memory `ProjectMemory` after a `clearMemory` call: the new value on
success, the untouched old value when the call threw. -/
def afterClear (scope : JStr) (createBackup : Bool) (projectName ptype now : JStr)
    (mem : ProjectMemory) : ProjectMemory :=
  match clearMemory scope createBackup projectName ptype now mem with
  | .ok p => p.1
  | .error _ => mem

/-! ## Untyped JSON values and `validateAndMigrateMemory` -/

/-- Untyped JSON values, as loaded from the memory file before validation.
Objects are insertion-ordered association lists (keys assumed unique, as
produced by `JSON.parse`). -/
inductive JValue where
  | null : JValue
  | bool : Bool → JValue
  | num : ℚ → JValue
  | str : JStr → JValue
  | arr : List JValue → JValue
  | obj : List (JStr × JValue) → JValue

/-- JavaScript truthiness of a JSON value. -/
def jtruthy : JValue → Bool
  | .null => false
  | .bool b => b
  | .num q => !(decide (q = 0))
  | .str s => !s.isEmpty
  | .arr _ => true
  | .obj _ => true

mutual

/-- `ToString` rendering used by template literals in the gateway messages:
exact for `null`, booleans and strings; arrays render as the comma-join of
their elements (approximating `Array.prototype.toString`), plain objects as
`[object Object]`, numbers via the rational's printed form. -/
def display : JValue → JStr
  | .null => "null".toList
  | .bool true => "true".toList
  | .bool false => "false".toList
  | .num q => (toString q).toList
  | .str s => s
  | .arr [] => []
  | .arr (v :: vs) => display v ++ displayTail vs
  | .obj _ => "[object Object]".toList

/-- Comma-joined tail of an array rendering. -/
def displayTail : List JValue → JStr
  | [] => []
  | v :: vs => ',' :: (display v ++ displayTail vs)

end

/-- The arguments of one `update_implementation_status` tool call, as the
handler destructures them (server.ts:322-323); each may be absent. -/
structure UpdateStatusArgs where
  component : Option JStr
  status : Option JStr
  details : Option JStr
  progress : Option Int

/-- `ProjectMemoryServer.handleUpdateImplementationStatus` (server.ts:322-340)
as it stands in `src/nodejs/src/server.ts`: it performs NO validation — it
destructures the arguments and invokes the store unconditionally.  (The
repository's tests call a `validateToolArguments` method expected to throw
`Missing required argument: …` and friends, but no such method exists in
this source file.)  The final `Bool` records that the `MemoryManager`
mutator was invoked. -/
def handleUpdateImplementationStatus (args : UpdateStatusArgs) (now : JStr)
    (mem : ProjectMemory) : ProjectMemory × JStr × Bool :=
  let mem2 := updateImplementationStatus args.component args.status args.details
    args.progress now mem
  let msg := "Successfully updated ".toList ++ jsShowOptStr args.component
    ++ " status to ".toList ++ jsShowOptStr args.status
    ++ (match args.progress with
        | some p => " (".toList ++ (toString p).toList ++ "%)".toList
        | none => [])
  (mem2, msg, true)

/-- The arguments of one `clear_memory` tool call as the handler sees them
(server.ts:439): raw JSON values, each possibly absent. -/
structure ClearMemoryArgs where
  scope : Option JValue
  create_backup : Option JValue
  confirm : Option JValue

/-- The text returned when the confirmation gate trips (server.ts:441-450). -/
def gateMsg (scope createBackup : JValue) : JStr :=
  "⚠️ Memory clear operation requires confirmation. Call again with confirm: true to proceed.\n\nThis will clear: ".toList
    ++ display scope ++ "\nBackup will be created: ".toList ++ display createBackup

/-- `ProjectMemoryServer.handleClearMemory` (server.ts:438-462), with the
destructuring defaults `scope = 'all'`, `create_backup = true`,
`confirm = false` and the surrounding `handleToolCall` catch that turns a
thrown store error into an `Error executing clear_memory: …` text
(server.ts:273-283).  The final `Bool` records whether the store's
`clearMemory` was invoked. -/
def handleClearMemory (args : ClearMemoryArgs) (projectName ptype now : JStr)
    (mem : ProjectMemory) : ProjectMemory × JStr × Bool :=
  let scope := args.scope.getD (.str "all".toList)
  let createBackup := args.create_backup.getD (.bool true)
  let confirm := args.confirm.getD (.bool false)
  if jtruthy confirm = false then
    (mem, gateMsg scope createBackup, false)
  else
    match scope with
    | .str s =>
      match clearMemory s (jtruthy createBackup) projectName ptype now mem with
      | .ok (m2, msg) => (m2, msg, true)
      | .error emsg => (mem, "Error executing clear_memory: ".toList ++ emsg, true)
    | v =>
      (mem, "Error executing clear_memory: ".toList ++ unknownScopeMsg (display v), true)

/-! ## Concrete fixtures for witnesses and counterexamples -/

/-- A freshly initialized project info block. -/
def sampleInfo : ProjectInfo :=
  ⟨"proj".toList, "unknown".toList, [], "t0".toList, "t0".toList⟩

/-- A freshly initialized metadata block. -/
def sampleMeta : MemoryMetadata :=
  ⟨"1.0.0".toList, "t0".toList, "t0".toList⟩

/-- A freshly initialized store (the default memory structure). -/
def emptyMemory : ProjectMemory :=
  ⟨sampleInfo, ⟨"unknown".toList, []⟩, ⟨[], []⟩, [], [], [], sampleMeta⟩

/-- A concrete architecture decision mentioning React. -/
def reactDecision : ArchitectureDecision :=
  ⟨"d1".toList, "Use React for frontend".toList, "popular".toList, none, none,
    "t1".toList, some []⟩

/-- A store holding exactly the React decision. -/
def reactMemory : ProjectMemory :=
  { emptyMemory with architecture := ⟨[], [reactDecision]⟩ }

/-- A decision whose text shares the token `react` with the query
`"react vue"` without containing the whole query as a substring. -/
def tokenOnlyDecision : ArchitectureDecision :=
  ⟨"d2".toList, "use react".toList, "fast builds".toList, none, none,
    "t1".toList, some []⟩

/-- A store holding exactly `tokenOnlyDecision`. -/
def tokenOnlyMemory : ProjectMemory :=
  { emptyMemory with architecture := ⟨[], [tokenOnlyDecision]⟩ }

/-- A concrete conversation entry. -/
def convA : ConversationContext :=
  ⟨"c1".toList, "hello".toList, none, none, "t1".toList⟩

/-- A decision whose text `"a  b"` (two adjacent spaces) is admitted by the
query `"a  b"` and whose relevance evaluation hits a `0/0` pair: both the
query and the scored text split into tokens containing the empty token. -/
def nanDecision : ArchitectureDecision :=
  ⟨"d3".toList, "a  b".toList, "r".toList, none, none, "t1".toList, some []⟩

/-- A store holding exactly `nanDecision`. -/
def nanMemory : ProjectMemory :=
  { emptyMemory with architecture := ⟨[], [nanDecision]⟩ }

/-! ## Helper lemmas: substring closure, fold sums, sort stability, lastN -/

theorem containsSub_nil_needle (hay : JStr) : containsSub hay [] = true := by
  induction hay with
  | nil => rfl
  | cons c t ih => simp [containsSub, startsWithL]

theorem startsWithL_append (n : JStr) : ∀ (l B : JStr),
    startsWithL n l = true → startsWithL n (l ++ B) = true := by
  induction n with
  | nil => intro l B _; simp [startsWithL]
  | cons a as ih =>
    intro l B h
    cases l with
    | nil => simp [startsWithL] at h
    | cons b bs =>
      simp only [startsWithL, Bool.and_eq_true] at h
      simp only [List.cons_append, startsWithL, Bool.and_eq_true]
      exact ⟨h.1, ih bs B h.2⟩

theorem containsSub_append_left (A B n : JStr) (h : containsSub A n = true) :
    containsSub (A ++ B) n = true := by
  induction A with
  | nil =>
    simp only [containsSub, List.isEmpty_iff] at h
    subst h
    exact containsSub_nil_needle _
  | cons c t ih =>
    simp only [containsSub, Bool.or_eq_true] at h
    simp only [List.cons_append, containsSub, Bool.or_eq_true]
    rcases h with h | h
    · exact Or.inl (startsWithL_append n (c :: t) B h)
    · exact Or.inr (ih h)

theorem containsSub_append_right (A B n : JStr) (h : containsSub B n = true) :
    containsSub (A ++ B) n = true := by
  induction A with
  | nil => simpa using h
  | cons c t ih =>
    simp only [List.cons_append, containsSub, Bool.or_eq_true]
    exact Or.inr ih

theorem jsToLower_append (a b : JStr) : jsToLower (a ++ b) = jsToLower a ++ jsToLower b :=
  List.map_append _ _ _

theorem jsToLower_decisionText (d : ArchitectureDecision) :
    jsToLower (decisionText d)
      = jsToLower d.decision ++ Char.toLower ' ' :: jsToLower d.rationale := by
  simp [decisionText, jsToLower]

theorem jsToLower_solutionText (s : WorkingSolution) :
    jsToLower (solutionText s)
      = jsToLower s.problem ++ Char.toLower ' ' :: jsToLower s.solution := by
  simp [solutionText, jsToLower]

theorem admitDecision_contains (ql : JStr) (d : ArchitectureDecision)
    (h : admitDecision ql d = true) :
    containsSub (jsToLower (decisionText d)) ql = true := by
  rw [jsToLower_decisionText]
  simp only [admitDecision, Bool.or_eq_true] at h
  rcases h with h | h
  · exact containsSub_append_left _ _ _ h
  · rw [List.append_cons]
    exact containsSub_append_right _ _ _ h

theorem admitSolution_contains (ql : JStr) (s : WorkingSolution)
    (h : admitSolution ql s = true) :
    containsSub (jsToLower (solutionText s)) ql = true := by
  rw [jsToLower_solutionText]
  simp only [admitSolution, Bool.or_eq_true] at h
  rcases h with h | h
  · exact containsSub_append_left _ _ _ h
  · rw [List.append_cons]
    exact containsSub_append_right _ _ _ h

theorem jadd_nan_left (x : JNum) : jadd JNum.nan x = JNum.nan := by
  cases x <;> rfl

theorem jnumGeB_refl (n : JNum) : jnumGeB n n = true := by
  cases n <;> simp [jnumGeB]

theorem innerFold_nan (qw : JStr) (tws : List JStr) :
    tws.foldl
      (fun acc2 tw =>
        if containsSub tw qw then jadd acc2 (jdivNat qw.length tw.length) else acc2)
      JNum.nan = JNum.nan := by
  induction tws with
  | nil => rfl
  | cons tw tws ih =>
    have e : (if containsSub tw qw then jadd JNum.nan (jdivNat qw.length tw.length)
        else JNum.nan) = JNum.nan := by
      split <;> simp [jadd_nan_left]
    rw [List.foldl_cons, e]
    exact ih

theorem innerFold_fin (qw : JStr) :
    ∀ (tws : List JStr) (a : ℚ),
      tws.foldl
        (fun acc2 tw =>
          if containsSub tw qw then jadd acc2 (jdivNat qw.length tw.length) else acc2)
        (JNum.fin a)
      = if qw = [] ∧ [] ∈ tws then JNum.nan
        else JNum.fin (a + (tws.map fun tw =>
          if containsSub tw qw then (qw.length : ℚ) / (tw.length : ℚ) else 0).sum) := by
  intro tws
  induction tws with
  | nil => intro a; simp
  | cons tw tws ih =>
    intro a
    rw [List.foldl_cons]
    by_cases hg : containsSub tw qw = true
    · by_cases htw : tw = []
      · subst htw
        have hq : qw = [] := by
          simpa [containsSub, List.isEmpty_iff] using hg
        subst hq
        rw [if_pos hg,
          show jadd (JNum.fin a) (jdivNat (List.length ([] : JStr)) (List.length ([] : JStr)))
              = JNum.nan from rfl,
          innerFold_nan, if_pos ⟨rfl, List.mem_cons_self _ _⟩]
      · have hlen : ¬(tw.length = 0) := by
          simpa [List.length_eq_zero] using htw
        rw [if_pos hg,
          show jadd (JNum.fin a) (jdivNat qw.length tw.length)
              = JNum.fin (a + (qw.length : ℚ) / (tw.length : ℚ)) from by
            simp [jdivNat, hlen, jadd],
          ih]
        by_cases hc : qw = [] ∧ [] ∈ tws
        · rw [if_pos hc, if_pos ⟨hc.1, List.mem_cons_of_mem _ hc.2⟩]
        · have hc2 : ¬(qw = [] ∧ [] ∈ tw :: tws) := by
            rintro ⟨h1, h2⟩
            rcases List.mem_cons.mp h2 with h2 | h2
            · exact htw h2.symm
            · exact hc ⟨h1, h2⟩
          rw [if_neg hc, if_neg hc2, List.map_cons, List.sum_cons, if_pos hg]
          congr 1
          ring
    · rw [if_neg hg, ih]
      by_cases hc : qw = [] ∧ [] ∈ tws
      · rw [if_pos hc, if_pos ⟨hc.1, List.mem_cons_of_mem _ hc.2⟩]
      · have hc2 : ¬(qw = [] ∧ [] ∈ tw :: tws) := by
          rintro ⟨h1, h2⟩
          rcases List.mem_cons.mp h2 with h2 | h2
          · refine hg ?_
            rw [← h2, h1]
            rfl
          · exact hc ⟨h1, h2⟩
        rw [if_neg hc, if_neg hc2, List.map_cons, List.sum_cons, if_neg hg, zero_add]

theorem relevanceSpec_nonneg_tail (q text : JStr) :
    0 ≤ ((splitSp q).map fun qw =>
      ((splitSp (jsToLower text)).map fun tw =>
        if containsSub tw qw then (qw.length : ℚ) / (tw.length : ℚ) else 0).sum).sum := by
  apply List.sum_nonneg
  intro x hx
  simp only [List.mem_map] at hx
  obtain ⟨qw, _, rfl⟩ := hx
  apply List.sum_nonneg
  intro y hy
  simp only [List.mem_map] at hy
  obtain ⟨tw, _, rfl⟩ := hy
  split
  · exact div_nonneg (Nat.cast_nonneg _) (Nat.cast_nonneg _)
  · exact le_refl 0

theorem relevanceSpec_ge_ten (q text : JStr)
    (h : containsSub (jsToLower text) q = true) :
    (10 : ℚ) ≤ relevanceSpec q text := by
  rw [relevanceSpec, if_pos h]
  have := relevanceSpec_nonneg_tail q text
  linarith

theorem outerFold_nan (tws qws : List JStr) :
    qws.foldl
      (fun acc qw =>
        tws.foldl
          (fun acc2 tw =>
            if containsSub tw qw then jadd acc2 (jdivNat qw.length tw.length) else acc2)
          acc)
      JNum.nan = JNum.nan := by
  induction qws with
  | nil => rfl
  | cons qw qws ih =>
    rw [List.foldl_cons, innerFold_nan]
    exact ih

theorem outerFold_fin (tws : List JStr) :
    ∀ (qws : List JStr) (s : ℚ),
      qws.foldl
        (fun acc qw =>
          tws.foldl
            (fun acc2 tw =>
              if containsSub tw qw then jadd acc2 (jdivNat qw.length tw.length) else acc2)
            acc)
        (JNum.fin s)
      = if [] ∈ qws ∧ [] ∈ tws then JNum.nan
        else JNum.fin (s + (qws.map fun qw => (tws.map fun tw =>
          if containsSub tw qw then (qw.length : ℚ) / (tw.length : ℚ) else 0).sum).sum) := by
  intro qws
  induction qws with
  | nil => intro s; simp
  | cons qw qws ih =>
    intro s
    rw [List.foldl_cons, innerFold_fin]
    by_cases hq : qw = [] ∧ [] ∈ tws
    · rw [if_pos hq, outerFold_nan, if_pos ⟨by simp [← hq.1], hq.2⟩]
    · rw [if_neg hq, ih]
      by_cases hc : [] ∈ qws ∧ [] ∈ tws
      · rw [if_pos hc, if_pos ⟨List.mem_cons_of_mem _ hc.1, hc.2⟩]
      · have hc2 : ¬([] ∈ qw :: qws ∧ [] ∈ tws) := by
          rintro ⟨h1, h2⟩
          rcases List.mem_cons.mp h1 with h1 | h1
          · exact hq ⟨h1.symm, h2⟩
          · exact hc ⟨h1, h2⟩
        rw [if_neg hc, if_neg hc2, List.map_cons, List.sum_cons]
        congr 1
        ring

theorem calculateRelevance_characterization (q text : JStr) :
    calculateRelevance q text
      = if [] ∈ splitSp q ∧ [] ∈ splitSp (jsToLower text) then JNum.nan
        else JNum.fin (relevanceSpec q text) := by
  simp only [calculateRelevance]
  rw [outerFold_fin]
  rfl

theorem calculateRelevance_resolve (q text : JStr) :
    calculateRelevance q text = JNum.nan
      ∨ calculateRelevance q text = JNum.fin (relevanceSpec q text) := by
  rw [calculateRelevance_characterization]
  split
  · exact Or.inl rfl
  · exact Or.inr rfl

theorem calculateRelevance_of_no_empty_query (q text : JStr)
    (h : ([] : JStr) ∉ splitSp q) :
    calculateRelevance q text = JNum.fin (relevanceSpec q text) := by
  rw [calculateRelevance_characterization, if_neg (fun hc => h hc.1)]

theorem filter_orderedInsert_eqkey (w : JNum) (x : SearchResult)
    (hx : x.relevance = w) :
    ∀ l : List SearchResult,
      (List.orderedInsert searchGe x l).filter (fun r => decide (r.relevance = w))
        = x :: l.filter (fun r => decide (r.relevance = w)) := by
  intro l
  induction l with
  | nil => simp [List.orderedInsert, hx]
  | cons y ys ih =>
    by_cases h : searchGe x y
    · simp [List.orderedInsert, h, List.filter_cons, hx]
    · have hy : ¬(y.relevance = w) := by
        intro e
        exact h (by simp [searchGe, e, hx, jnumGeB_refl])
      simp [List.orderedInsert, h, List.filter_cons, hy, ih]

theorem filter_orderedInsert_nekey (w : JNum) (x : SearchResult)
    (hx : ¬(x.relevance = w)) :
    ∀ l : List SearchResult,
      (List.orderedInsert searchGe x l).filter (fun r => decide (r.relevance = w))
        = l.filter (fun r => decide (r.relevance = w)) := by
  intro l
  induction l with
  | nil => simp [List.orderedInsert, hx]
  | cons y ys ih =>
    by_cases h : searchGe x y
    · simp [List.orderedInsert, h, List.filter_cons, hx]
    · simp [List.orderedInsert, h, List.filter_cons, ih]

theorem filter_sortDesc (w : JNum) (l : List SearchResult) :
    (sortDesc l).filter (fun r => decide (r.relevance = w))
      = l.filter (fun r => decide (r.relevance = w)) := by
  induction l with
  | nil => rfl
  | cons x xs ih =>
    show (List.orderedInsert searchGe x (sortDesc xs)).filter _ = _
    by_cases hx : x.relevance = w
    · rw [filter_orderedInsert_eqkey w x hx, ih, List.filter_cons, if_pos (by simpa using hx)]
    · rw [filter_orderedInsert_nekey w x hx, ih, List.filter_cons,
        if_neg (by simpa using hx)]

theorem sorted_sortDesc (l : List SearchResult) : List.Sorted searchGe (sortDesc l) :=
  List.sorted_insertionSort searchGe l

theorem mem_sortDesc {r : SearchResult} {l : List SearchResult} :
    r ∈ sortDesc l ↔ r ∈ l :=
  List.mem_insertionSort searchGe

theorem length_lastN (n : Nat) (l : List α) : (lastN n l).length ≤ n := by
  simp only [lastN, List.length_drop]
  omega

theorem lastN_of_le {n : Nat} {l : List α} (h : l.length ≤ n) : lastN n l = l := by
  simp [lastN, Nat.sub_eq_zero_of_le h]

theorem lastN_append_absorb (n : Nat) (A B : List α) :
    lastN n (lastN n A ++ B) = lastN n (A ++ B) := by
  rcases le_or_lt A.length n with h | h
  · rw [lastN_of_le h]
  · simp only [lastN, List.length_append, List.length_drop]
    have hx : A.length - (A.length - n) = n := by omega
    rw [hx, List.drop_append_eq_append_drop, List.drop_append_eq_append_drop,
      List.drop_drop, List.length_drop, hx]
    have e1 : A.length - n + (n + B.length - n) = A.length + B.length - n := by omega
    have e2 : n + B.length - n - n = A.length + B.length - n - A.length := by omega
    rw [e1, e2]

theorem lastN_append_right {n : Nat} (A : List α) {B : List α} (h : n ≤ B.length) :
    lastN n (A ++ B) = lastN n B := by
  simp only [lastN, List.length_append]
  rw [List.drop_append_eq_append_drop,
    List.drop_eq_nil_of_le (by omega : A.length ≤ A.length + B.length - n)]
  have e : A.length + B.length - n - A.length = B.length - n := by omega
  rw [e, List.nil_append]

theorem logConv_conversations (maxHist : Nat) (h : 1 ≤ maxHist) (now : JStr)
    (e : ConversationContext) (mem : ProjectMemory) :
    (logConversationContext maxHist now e mem).conversations
      = lastN maxHist (mem.conversations ++ [e]) := by
  simp only [logConversationContext, saveMemoryEff, jsSliceFromEnd]
  by_cases hlt : maxHist < (mem.conversations ++ [e]).length
  · simp only [List.length_append, List.length_cons, List.length_nil] at hlt
    simp only [lastN]
    simp [hlt, (by omega : ¬(maxHist = 0))]
    intro hz
    exact absurd hz (by omega)
  · simp only [List.length_append, List.length_cons, List.length_nil] at hlt
    simp only [List.length_append, List.length_cons, List.length_nil, if_neg hlt]
    rw [lastN_of_le (by simp; omega)]

theorem appendAll_conversations (maxHist : Nat) (h : 1 ≤ maxHist) (now : JStr) :
    ∀ (es : List ConversationContext) (mem : ProjectMemory),
      mem.conversations.length ≤ maxHist →
      (appendAllConversations maxHist now es mem).conversations
        = lastN maxHist (mem.conversations ++ es) := by
  intro es
  induction es with
  | nil =>
    intro mem hlen
    simp [appendAllConversations, lastN_of_le hlen]
  | cons e es ih =>
    intro mem hlen
    have step : appendAllConversations maxHist now (e :: es) mem
        = appendAllConversations maxHist now es (logConversationContext maxHist now e mem) :=
      rfl
    rw [step, ih _ (by rw [logConv_conversations maxHist h]; exact length_lastN _ _),
      logConv_conversations maxHist h, lastN_append_absorb]
    simp

theorem relevance_of_mem_candidates (ql : JStr) (mem : ProjectMemory) (r : SearchResult)
    (h : r ∈ searchCandidates ql mem) :
    r.relevance = calculateRelevance ql (searchText r.data) := by
  simp only [searchCandidates, List.mem_append, List.mem_map, List.mem_filter] at h
  rcases h with (⟨d, hd, rfl⟩ | ⟨s, hs, rfl⟩) | ⟨c, hc, rfl⟩ <;> simp [searchText]

theorem contains_of_mem_candidates (ql : JStr) (mem : ProjectMemory) (r : SearchResult)
    (h : r ∈ searchCandidates ql mem) :
    containsSub (jsToLower (searchText r.data)) ql = true := by
  simp only [searchCandidates, List.mem_append, List.mem_map, List.mem_filter] at h
  rcases h with (⟨d, hd, rfl⟩ | ⟨s, hs, rfl⟩) | ⟨c, hc, rfl⟩
  · exact admitDecision_contains ql d hd.2
  · exact admitSolution_contains ql s hs.2
  · exact hc.2

/-! ## Claims -/

/-- C1 (corrected) — counterexample to the claim as stated: with the query
`"react vue"` and a store holding one decision with text `"use react"` /
`"fast builds"`, the claim's admission predicate (whole-string substring OR
token overlap) holds via the token-overlap path, yet `searchMemory` admits
nothing: the candidate list is empty and the search returns no results.  In
the source, the token-overlap test occurs only inside `calculateRelevance`
(scoring), never in the admission test of `searchMemory`. -/
theorem c1_counterexample_token_overlap_not_admitted :
    specAdmitDecision ("react vue".toList) tokenOnlyDecision = true
    ∧ searchCandidates (jsToLower ("react vue".toList)) tokenOnlyMemory
        = ([] : List SearchResult)
    ∧ searchMemory ("react vue".toList) 10 tokenOnlyMemory = ([] : List SearchResult) := by
  decide

/-- C1 (amended): `searchMemory` admits a record as a candidate if and only if
the lowercased query is a substring of one of the record's matched fields —
`decision` or `rationale` for decisions, `problem` or `solution` for
solutions, `summary` for conversations.  Token overlap plays no role in
admission (it only contributes to the relevance score). -/
theorem c1_admission_characterization (q : JStr) (mem : ProjectMemory)
    (d : ArchitectureDecision) (s : WorkingSolution) (c : ConversationContext) :
    (SearchData.dec d ∈ (searchCandidates (jsToLower q) mem).map SearchResult.data
      ↔ d ∈ mem.architecture.decisions ∧ admitDecision (jsToLower q) d = true)
    ∧ (SearchData.sol s ∈ (searchCandidates (jsToLower q) mem).map SearchResult.data
      ↔ s ∈ mem.working_solutions.map Prod.snd ∧ admitSolution (jsToLower q) s = true)
    ∧ (SearchData.conv c ∈ (searchCandidates (jsToLower q) mem).map SearchResult.data
      ↔ c ∈ mem.conversations ∧ admitConversation (jsToLower q) c = true) := by
  refine ⟨?_, ?_, ?_⟩ <;>
  · simp only [searchCandidates, List.map_append, List.map_map, List.mem_append,
      List.mem_map, Function.comp, List.mem_filter]
    constructor
    · rintro ((⟨a, ⟨ha, hadm⟩, heq⟩ | ⟨a, ⟨ha, hadm⟩, heq⟩) | ⟨a, ⟨ha, hadm⟩, heq⟩) <;>
        first
        | (cases heq; exact ⟨ha, hadm⟩)
        | exact absurd heq (by simp)
    · rintro ⟨hmem, hadm⟩
      first
      | exact Or.inl (Or.inl ⟨_, ⟨hmem, hadm⟩, rfl⟩)
      | exact Or.inl (Or.inr ⟨_, ⟨hmem, hadm⟩, rfl⟩)
      | exact Or.inr ⟨_, ⟨hmem, hadm⟩, rfl⟩

/-- C2 (corrected) — counterexample to the claim as stated: with the query
`"a  b"` (two adjacent spaces) on a store holding the admitted decision
`"a  b"` / `"r"`, the claim's formula gives the rational
`relevanceSpec` value, but the program's IEEE evaluation hits the `0/0`
pair of empty tokens and returns relevance NaN — not the formula's value. -/
theorem c2_counterexample_nan_relevance :
    searchMemory ("a  b".toList) 10 nanMemory
      = [⟨"decision".toList, JNum.nan, SearchData.dec nanDecision⟩]
    ∧ JNum.nan
      ≠ JNum.fin (relevanceSpec (jsToLower ("a  b".toList)) (decisionText nanDecision)) := by
  decide

/-- C2 (amended): provided no admitted candidate's relevance is NaN (NaN
arises exactly when the lowercased query and a candidate's lowercased text
both split into tokens containing the empty token), every returned result's
relevance equals exactly the spec's formula (flat +10 for a whole-string
match plus the sum of `len(query_token)/len(text_token)` over matching token
pairs); the returned sequence is the `limit`-truncation of the stable
descending sort of the candidate list, hence sorted by descending score, and
the stability of the sort (ties keep original scan order) is expressed by
the last conjunct: filtering the sorted list at any fixed score value yields
exactly the same-score candidates in their original scan order. -/
theorem c2_relevance_and_ordering (q : JStr) (lim : Nat) (mem : ProjectMemory)
    (hnn : ∀ r ∈ searchCandidates (jsToLower q) mem, r.relevance ≠ JNum.nan) :
    searchMemory q lim mem = (sortDesc (searchCandidates (jsToLower q) mem)).take lim
    ∧ List.Sorted searchGe (searchMemory q lim mem)
    ∧ (searchMemory q lim mem).all
        (fun r => decide (r.relevance
          = JNum.fin (relevanceSpec (jsToLower q) (searchText r.data)))) = true
    ∧ ∀ w : JNum,
        (sortDesc (searchCandidates (jsToLower q) mem)).filter
            (fun r => decide (r.relevance = w))
          = (searchCandidates (jsToLower q) mem).filter (fun r => decide (r.relevance = w)) := by
  refine ⟨rfl, ?_, ?_, fun w => filter_sortDesc w _⟩
  · exact List.Pairwise.sublist (List.take_sublist _ _) (sorted_sortDesc _)
  · rw [List.all_eq_true]
    intro r hr
    simp only [searchMemory, searchMemoryLow] at hr
    have hr2 : r ∈ searchCandidates (jsToLower q) mem :=
      mem_sortDesc.mp ((List.take_sublist _ _).subset hr)
    simp only [decide_eq_true_eq]
    rw [relevance_of_mem_candidates _ _ _ hr2]
    rcases calculateRelevance_resolve (jsToLower q) (searchText r.data) with hnan | hfin
    · exact absurd (relevance_of_mem_candidates _ _ _ hr2 ▸ hnan) (hnn r hr2)
    · exact hfin

/-- Witness for C2 on a NaN-free concrete call: query `"react"` on the store
holding the React decision; the hypothesis is discharged by evaluation and
the score conjunct is concluded. -/
theorem c2_relevance_and_ordering_witness :
    (searchMemory ("react".toList) 10 reactMemory).all
      (fun r => decide (r.relevance
        = JNum.fin (relevanceSpec (jsToLower ("react".toList)) (searchText r.data)))) = true :=
  (c2_relevance_and_ordering ("react".toList) 10 reactMemory (by decide)).2.2.1

/-- C8 (confirmed): `searchMemory` factors through the lowercased query, so
two queries with the same lowercasing produce identical result sequences —
same records, same count, same scores, same order — for every store state
and limit. -/
theorem c8_search_case_insensitive (q1 q2 : JStr) (h : jsToLower q1 = jsToLower q2)
    (lim : Nat) (mem : ProjectMemory) :
    searchMemory q1 lim mem = searchMemory q2 lim mem := by
  simp only [searchMemory, h]

/-- Witness for C8 at the concrete queries `"REACT"` and `"React"` on a store
holding the React decision. -/
theorem c8_search_case_insensitive_witness :
    searchMemory ("REACT".toList) 10 reactMemory
      = searchMemory ("React".toList) 10 reactMemory :=
  c8_search_case_insensitive ("REACT".toList) ("React".toList) (by decide) 10 reactMemory

/-- C9 (corrected) — counterexample to the claim as stated: the query
`"a  b"` on the store holding the admitted decision `"a  b"` / `"r"` returns
one result whose relevance is NaN, and the JavaScript comparison
`NaN >= 10` is false — so not every returned score is at least 10. -/
theorem c9_counterexample_nan_score :
    searchMemory ("a  b".toList) 10 nanMemory
      = [⟨"decision".toList, JNum.nan, SearchData.dec nanDecision⟩]
    ∧ jnumGeTen JNum.nan = false := by
  decide

/-- C9 (amended): every element of the sequence returned by `searchMemory`
has relevance NaN or a rational of at least 10: admission forces the
lowercased query to occur in one matched field, that field is a segment of
the text handed to `calculateRelevance`, so the flat +10 bonus fires, and
every token contribution is non-negative — except that a `0/0` empty-token
pair turns the whole score into NaN.  When the lowercased query has no empty
token (no leading, trailing or adjacent spaces), NaN cannot arise and every
returned score is a rational of at least 10. -/
theorem c9_returned_scores_at_least_ten (q : JStr) (lim : Nat) (mem : ProjectMemory) :
    (searchMemory q lim mem).all
      (fun r => decide (r.relevance = JNum.nan) || jnumGeTen r.relevance) = true
    ∧ (([] : JStr) ∉ splitSp (jsToLower q) →
        (searchMemory q lim mem).all (fun r => jnumGeTen r.relevance) = true) := by
  have key : ∀ r ∈ searchMemory q lim mem,
      r.relevance = calculateRelevance (jsToLower q) (searchText r.data)
        ∧ containsSub (jsToLower (searchText r.data)) (jsToLower q) = true := by
    intro r hr
    simp only [searchMemory, searchMemoryLow] at hr
    have hr2 : r ∈ searchCandidates (jsToLower q) mem :=
      mem_sortDesc.mp ((List.take_sublist _ _).subset hr)
    exact ⟨relevance_of_mem_candidates _ _ _ hr2, contains_of_mem_candidates _ _ _ hr2⟩
  constructor
  · rw [List.all_eq_true]
    intro r hr
    obtain ⟨hrel, hcon⟩ := key r hr
    rcases calculateRelevance_resolve (jsToLower q) (searchText r.data) with hnan | hfin
    · simp [hrel, hnan]
    · have hge := relevanceSpec_ge_ten (jsToLower q) (searchText r.data) hcon
      simp [hrel, hfin, jnumGeTen, hge]
  · intro hq
    rw [List.all_eq_true]
    intro r hr
    obtain ⟨hrel, hcon⟩ := key r hr
    have hfin := calculateRelevance_of_no_empty_query (jsToLower q) (searchText r.data) hq
    have hge := relevanceSpec_ge_ten (jsToLower q) (searchText r.data) hcon
    simp [hrel, hfin, jnumGeTen, hge]

/-- Witness for C9 at the concrete query `"react"` (no empty token) on the
store holding the React decision: every returned score is at least 10. -/
theorem c9_returned_scores_at_least_ten_witness :
    (searchMemory ("react".toList) 10 reactMemory).all
      (fun r => jnumGeTen r.relevance) = true :=
  (c9_returned_scores_at_least_ten ("react".toList) 10 reactMemory).2 (by decide)

/-- C4 (corrected) — counterexample to the claim as stated: with the
configured maximum set to 0 (a value the config file can supply), the store
state with no conversations satisfies the claim's precondition
(`length ≤ max`), yet after one append the sequence has length 1 > 0: the
ECMAScript quirk `slice(-0) = slice(0)` returns the whole array, so the cap
is not enforced. -/
theorem c4_counterexample_zero_max :
    emptyMemory.conversations.length ≤ 0
    ∧ ¬((logConversationContext 0 ("t2".toList) convA emptyMemory).conversations.length ≤ 0) := by
  decide

/-- C4 (amended): provided the configured maximum is at least 1, after any
`logConversationContext` call the conversations sequence equals the last
`max` entries of the old sequence with the new entry appended (so its length
stays at most `max` and it consists of the most recently appended entries in
append order, dropped from the front); in particular appending `max + 5`
entries leaves exactly the most recently appended `max`, i.e. the input
sequence with its first 5 entries dropped. -/
theorem c4_conversation_cap (maxHist : Nat) (now : JStr) (mem : ProjectMemory)
    (e : ConversationContext) (es : List ConversationContext)
    (hmax : 1 ≤ maxHist) (hlen : mem.conversations.length ≤ maxHist) :
    (logConversationContext maxHist now e mem).conversations
        = lastN maxHist (mem.conversations ++ [e])
    ∧ (logConversationContext maxHist now e mem).conversations.length ≤ maxHist
    ∧ (es.length = maxHist + 5 →
        (appendAllConversations maxHist now es mem).conversations = es.drop 5) := by
  refine ⟨logConv_conversations maxHist hmax now e mem, ?_, ?_⟩
  · rw [logConv_conversations maxHist hmax]
    exact length_lastN _ _
  · intro hes
    rw [appendAll_conversations maxHist hmax now es mem hlen,
      lastN_append_right _ (by omega), lastN, hes,
      (by omega : maxHist + 5 - maxHist = 5)]

/-- Witness for C4 at `max = 2`: appending 7 entries to the fresh store
leaves exactly the last 2. -/
theorem c4_conversation_cap_witness :
    (appendAllConversations 2 ("t2".toList) (List.replicate 7 convA) emptyMemory).conversations
      = (List.replicate 7 convA).drop 5 :=
  (c4_conversation_cap 2 ("t2".toList) emptyMemory convA (List.replicate 7 convA)
    (by decide) (by decide)).2.2 (by decide)

/-- C6 (confirmed): for each scope among decisions, solutions, conversations
and components, `clearMemory(scope, createBackup)` empties exactly that
scope's section (for components, also resetting `overall_progress` to
`"unknown"`) and leaves the data of every other scope — and the project info,
technologies and priorities — unchanged. -/
theorem c6_clear_scope_frame (mem : ProjectMemory) (cb : Bool) (pn pt now : JStr) :
    ((afterClear ("decisions".toList) cb pn pt now mem).architecture.decisions = []
      ∧ (afterClear ("decisions".toList) cb pn pt now mem).architecture.technologies
          = mem.architecture.technologies
      ∧ (afterClear ("decisions".toList) cb pn pt now mem).working_solutions
          = mem.working_solutions
      ∧ (afterClear ("decisions".toList) cb pn pt now mem).conversations = mem.conversations
      ∧ (afterClear ("decisions".toList) cb pn pt now mem).implementation_status
          = mem.implementation_status
      ∧ (afterClear ("decisions".toList) cb pn pt now mem).current_priorities
          = mem.current_priorities
      ∧ (afterClear ("decisions".toList) cb pn pt now mem).project_info = mem.project_info)
    ∧ ((afterClear ("solutions".toList) cb pn pt now mem).working_solutions = []
      ∧ (afterClear ("solutions".toList) cb pn pt now mem).architecture = mem.architecture
      ∧ (afterClear ("solutions".toList) cb pn pt now mem).conversations = mem.conversations
      ∧ (afterClear ("solutions".toList) cb pn pt now mem).implementation_status
          = mem.implementation_status
      ∧ (afterClear ("solutions".toList) cb pn pt now mem).current_priorities
          = mem.current_priorities
      ∧ (afterClear ("solutions".toList) cb pn pt now mem).project_info = mem.project_info)
    ∧ ((afterClear ("conversations".toList) cb pn pt now mem).conversations = []
      ∧ (afterClear ("conversations".toList) cb pn pt now mem).architecture = mem.architecture
      ∧ (afterClear ("conversations".toList) cb pn pt now mem).working_solutions
          = mem.working_solutions
      ∧ (afterClear ("conversations".toList) cb pn pt now mem).implementation_status
          = mem.implementation_status
      ∧ (afterClear ("conversations".toList) cb pn pt now mem).current_priorities
          = mem.current_priorities
      ∧ (afterClear ("conversations".toList) cb pn pt now mem).project_info = mem.project_info)
    ∧ ((afterClear ("components".toList) cb pn pt now mem).implementation_status.components = []
      ∧ (afterClear ("components".toList) cb pn pt now mem).implementation_status.overall_progress
          = "unknown".toList
      ∧ (afterClear ("components".toList) cb pn pt now mem).architecture = mem.architecture
      ∧ (afterClear ("components".toList) cb pn pt now mem).working_solutions
          = mem.working_solutions
      ∧ (afterClear ("components".toList) cb pn pt now mem).conversations = mem.conversations
      ∧ (afterClear ("components".toList) cb pn pt now mem).current_priorities
          = mem.current_priorities
      ∧ (afterClear ("components".toList) cb pn pt now mem).project_info = mem.project_info) :=
  ⟨⟨rfl, rfl, rfl, rfl, rfl, rfl, rfl⟩,
    ⟨rfl, rfl, rfl, rfl, rfl, rfl⟩,
    ⟨rfl, rfl, rfl, rfl, rfl, rfl⟩,
    ⟨rfl, rfl, rfl, rfl, rfl, rfl, rfl⟩⟩

/-- C10 (confirmed): a scope outside the five valid values makes
`clearMemory` throw the unknown-scope error before performing any mutation
or save: the call yields exactly `Except.error` with the unknown-scope
message, and the in-memory `ProjectMemory` after the failed call is the
`ProjectMemory` before it.  (When `createBackup` is true the backup file
write happens first, but that is file I/O outside the in-memory state.) -/
theorem c10_unknown_scope_error_atomic (scope : JStr) (cb : Bool) (pn pt now : JStr)
    (mem : ProjectMemory)
    (h : scope ∉ [("all".toList : JStr), "decisions".toList, "solutions".toList,
      "conversations".toList, "components".toList]) :
    clearMemory scope cb pn pt now mem = Except.error (unknownScopeMsg scope)
    ∧ afterClear scope cb pn pt now mem = mem := by
  simp only [List.mem_cons, List.not_mem_nil, or_false, not_or] at h
  obtain ⟨h1, h2, h3, h4, h5⟩ := h
  refine ⟨?_, ?_⟩ <;>
    simp only [clearMemory, afterClear, if_neg h1, if_neg h2, if_neg h3, if_neg h4, if_neg h5]

/-- Witness for C10 at the concrete scope `"bogus"` on the fresh store. -/
theorem c10_unknown_scope_error_atomic_witness :
    clearMemory ("bogus".toList) true ("proj".toList) ("unknown".toList) ("t2".toList)
        emptyMemory
      = Except.error (unknownScopeMsg ("bogus".toList))
    ∧ afterClear ("bogus".toList) true ("proj".toList) ("unknown".toList) ("t2".toList)
        emptyMemory
      = emptyMemory :=
  c10_unknown_scope_error_atomic ("bogus".toList) true ("proj".toList) ("unknown".toList)
    ("t2".toList) emptyMemory (by decide)

/-- C7 (confirmed): when the `confirm` argument of a `clear_memory` call is
absent or `false`, the gateway short-circuits: it never invokes the store's
`clearMemory` (flag `false`), leaves the store state unchanged, and returns
the message describing what would be cleared and whether a backup would be
made. -/
theorem c7_clear_requires_confirm (args : ClearMemoryArgs) (pn pt now : JStr)
    (mem : ProjectMemory)
    (h : args.confirm = none ∨ args.confirm = some (JValue.bool false)) :
    handleClearMemory args pn pt now mem
      = (mem, gateMsg (args.scope.getD (JValue.str ("all".toList)))
          (args.create_backup.getD (JValue.bool true)), false) := by
  rcases h with h | h <;> simp [handleClearMemory, h, jtruthy]

/-- Witness for C7: a call with scope `"decisions"` and no `confirm` key is
gated — state unchanged, store not called. -/
theorem c7_clear_requires_confirm_witness :
    handleClearMemory ⟨some (JValue.str ("decisions".toList)), none, none⟩
        ("proj".toList) ("unknown".toList) ("t2".toList) emptyMemory
      = (emptyMemory, gateMsg (JValue.str ("decisions".toList)) (JValue.bool true), false) :=
  c7_clear_requires_confirm ⟨some (JValue.str ("decisions".toList)), none, none⟩
    ("proj".toList) ("unknown".toList) ("t2".toList) emptyMemory (Or.inl rfl)

/-- C3 (code_bug): evaluating the gateway of `src/nodejs/src/server.ts` at an
`update_implementation_status` call whose required `status` argument is
missing shows that no validation happens: the store mutator IS invoked (flag
`true`), the component is stored with an undefined status, and the reply is
the success text `Successfully updated frontend status to undefined` — not
the `Missing required argument: status` signal the claim (and the
repository's own tests, which call a `validateToolArguments` method absent
from this source file) require. -/
theorem c3_gateway_skips_validation :
    (handleUpdateImplementationStatus ⟨some ("frontend".toList), none, none, none⟩
        ("t2".toList) emptyMemory).2.2 = true
    ∧ (handleUpdateImplementationStatus ⟨some ("frontend".toList), none, none, none⟩
        ("t2".toList) emptyMemory).2.1
      = "Successfully updated frontend status to undefined".toList
    ∧ (handleUpdateImplementationStatus ⟨some ("frontend".toList), none, none, none⟩
        ("t2".toList) emptyMemory).1.implementation_status.components
      = [("frontend".toList, ⟨none, 0, none, "t2".toList⟩)] := by
  decide
